import Mathlib

/-!
Verification of the Pomodoro timer (`pomodoro.py`): a shallow embedding of
the cycle state machine (`run_pomodoro` with its save helpers), the JSON
history store (`_load_data` / `_save_data`), and the statistics code
(`print_statistics`, `_calculate_avg_per_day`), with theorems settling the
specified behaviour of each part.
-/

/-! ## JSON values

A model of the Python/JSON values handled by the store. Objects are
association lists; parsed JSON objects have unique keys, so first-match
lookup coincides with Python dict lookup. -/

inductive Json where
  | null
  | bool (b : Bool)
  | num (q : ℚ)
  | str (s : String)
  | arr (elems : List Json)
  | obj (kvs : List (String × Json))

/-- Python `d[k]` read on an association list (first match). -/
def lookupKey : List (String × Json) → String → Option Json
  | [], _ => none
  | kv :: rest, k => if kv.1 = k then some kv.2 else lookupKey rest k

/-- Python `d[k] = v` for a key already present: replace in place, keep order. -/
def setKey : List (String × Json) → String → Json → List (String × Json)
  | [], _, _ => []
  | kv :: rest, k, v => if kv.1 = k then (k, v) :: setKey rest k v else kv :: setKey rest k v

/-- The `"pomodoros"` list of a data value, when it is a mapping whose
`"pomodoros"` key holds a list. -/
def pomodorosOf : Json → Option (List Json)
  | Json.obj kvs =>
    match lookupKey kvs "pomodoros" with
    | some (Json.arr xs) => some xs
    | _ => none
  | _ => none

/-! ## History store: `_load_data`

The content the store finds when it opens its file: the file may be
missing (`self.storage_path.exists()` false), unparsable
(`json.JSONDecodeError`), or parsed into a JSON value. -/

inductive FileContent where
  | missing
  | unparsable
  | parsed (j : Json)

/-- `PomodoroTimer._load_data` (pomodoro.py lines 48-67); the `Bool` records
whether a warning was printed. Missing file: empty history. Parse error or
non-dict content or a non-list `'pomodoros'` value: warning and reset to
`{'pomodoros': []}`. A dict without the `'pomodoros'` key gets the key filled
with `[]` (a plain `data['pomodoros'] = []`, no warning). -/
def _load_data : FileContent → Json × Bool
  | FileContent.missing => (Json.obj [("pomodoros", Json.arr [])], false)
  | FileContent.unparsable => (Json.obj [("pomodoros", Json.arr [])], true)
  | FileContent.parsed j =>
    match j with
    | Json.obj kvs =>
      match lookupKey kvs "pomodoros" with
      | none => (Json.obj (kvs ++ [("pomodoros", Json.arr [])]), false)
      | some (Json.arr _) => (Json.obj kvs, false)
      | some _ => (Json.obj [("pomodoros", Json.arr [])], true)
    | _ => (Json.obj [("pomodoros", Json.arr [])], true)

/-- The cases in which `_load_data` prints a warning, stated from the code's
branches: unparsable content, content that is not a mapping, and a mapping
whose `'pomodoros'` value is present but not a list. -/
def loadWarns : FileContent → Bool
  | FileContent.missing => false
  | FileContent.unparsable => true
  | FileContent.parsed j =>
    match j with
    | Json.obj kvs =>
      match lookupKey kvs "pomodoros" with
      | none => false
      | some (Json.arr _) => false
      | some _ => true
    | _ => true

/-- The cases in which `_load_data` must come back with an empty record
list: every input except a mapping that already has a `'pomodoros'` list. -/
def loadYieldsEmpty : FileContent → Bool
  | FileContent.parsed (Json.obj kvs) =>
    match lookupKey kvs "pomodoros" with
    | some (Json.arr _) => false
    | _ => true
  | _ => true

/-! ## History store: append and save

`self.data` together with what is persisted on disk. `_save_data`
(lines 69-72) serialises the whole of `self.data`; `json.dump` followed by
`json.load` reproduces the same value, so the disk is modelled as holding
the JSON value last written (`none` before any write). -/

structure Store where
  data : Json
  disk : Option Json

/-- The shared record-appending step of `_save_completed_pomodoro` /
`_save_incomplete_pomodoro` (lines 248-250 and 267-269): fill in
`data['pomodoros'] = []` when the key is absent, then
`data['pomodoros'].append(record)`. `none` models the exception Python
would raise if `data` were not a dict or `data['pomodoros']` not a list. -/
def appendRecord (d : Json) (r : Json) : Option Json :=
  match d with
  | Json.obj kvs =>
    match lookupKey kvs "pomodoros" with
    | none => some (Json.obj (kvs ++ [("pomodoros", Json.arr [r])]))
    | some (Json.arr xs) => some (Json.obj (setKey kvs "pomodoros" (Json.arr (xs ++ [r]))))
    | some _ => none
  | _ => none

/-- `_save_data` (lines 69-72): rewrite the whole history to disk. -/
def save_data (st : Store) : Store :=
  { data := st.data, disk := some st.data }

/-- One append followed by the `_save_data` call that both save helpers end
with. -/
def appendAndSave (st : Store) (r : Json) : Option Store :=
  (appendRecord st.data r).map (fun d => save_data { data := d, disk := st.disk })

/-- A sequence of appends, each immediately persisted. -/
def appendAll (st : Store) : List Json → Option Store
  | [] => some st
  | r :: rs =>
    match appendAndSave st r with
    | none => none
    | some st2 => appendAll st2 rs

/-- The store as constructed when no data file exists yet. -/
def emptyStore : Store :=
  { data := (_load_data FileContent.missing).1, disk := none }

/-! ### Store lemmas -/

theorem lookupKey_setKey (kvs : List (String × Json)) (k : String) (v w : Json)
    (h : lookupKey kvs k = some w) : lookupKey (setKey kvs k v) k = some v := by
  induction kvs with
  | nil => simp [lookupKey] at h
  | cons kv rest ih =>
    by_cases hk : kv.1 = k
    · simp [lookupKey, setKey, hk]
    · simp only [lookupKey, setKey, hk, if_false, if_neg hk] at h ⊢
      exact ih h

theorem appendRecord_ok (d : Json) (r : Json) (xs : List Json)
    (h : pomodorosOf d = some xs) :
    ∃ d2, appendRecord d r = some d2 ∧ pomodorosOf d2 = some (xs ++ [r]) := by
  cases d with
  | obj kvs =>
    rw [pomodorosOf] at h
    cases hl : lookupKey kvs "pomodoros" with
    | none => rw [hl] at h; simp at h
    | some v =>
      rw [hl] at h
      cases v with
      | arr ys =>
        simp only [Option.some.injEq] at h
        subst h
        refine ⟨Json.obj (setKey kvs "pomodoros" (Json.arr (ys ++ [r]))), ?_, ?_⟩
        · rw [appendRecord, hl]
        · simp only [pomodorosOf]
          rw [lookupKey_setKey kvs "pomodoros" _ _ hl]
      | null => simp at h
      | bool b => simp at h
      | num q => simp at h
      | str s => simp at h
      | obj kvs2 => simp at h
  | null => simp [pomodorosOf] at h
  | bool b => simp [pomodorosOf] at h
  | num q => simp [pomodorosOf] at h
  | str s => simp [pomodorosOf] at h
  | arr ys => simp [pomodorosOf] at h

theorem appendAndSave_ok (st : Store) (r : Json) (xs : List Json)
    (h : pomodorosOf st.data = some xs) :
    ∃ st2, appendAndSave st r = some st2 ∧ st2.disk = some st2.data ∧
      pomodorosOf st2.data = some (xs ++ [r]) := by
  obtain ⟨d2, h1, h2⟩ := appendRecord_ok st.data r xs h
  refine ⟨save_data { data := d2, disk := st.disk }, ?_, rfl, h2⟩
  rw [appendAndSave, h1]
  rfl

theorem appendAll_ok (rs : List Json) : ∀ (st : Store) (xs : List Json),
    pomodorosOf st.data = some xs →
    ∃ st2, appendAll st rs = some st2 ∧ pomodorosOf st2.data = some (xs ++ rs) ∧
      (rs = [] → st2 = st) ∧ (rs ≠ [] → st2.disk = some st2.data) := by
  induction rs with
  | nil =>
    intro st xs h
    exact ⟨st, rfl, by simpa using h, fun _ => rfl, fun hne => absurd rfl hne⟩
  | cons r rest ih =>
    intro st xs h
    obtain ⟨st1, h1, hd1, hx1⟩ := appendAndSave_ok st r xs h
    obtain ⟨st2, h2, hx2, hnil2, hne2⟩ := ih st1 (xs ++ [r]) hx1
    refine ⟨st2, ?_, ?_, ?_, ?_⟩
    · rw [appendAll, h1]; exact h2
    · simpa using hx2
    · intro hfalse; simp at hfalse
    · intro _
      rcases eq_or_ne rest [] with hrest | hrest
      · rw [hnil2 hrest, hd1]
      · exact hne2 hrest

/-- A data value holding a valid record list is returned by `_load_data`
unchanged and without warning. -/
theorem load_parsed_valid (d : Json) (xs : List Json)
    (h : pomodorosOf d = some xs) : _load_data (FileContent.parsed d) = (d, false) := by
  cases d with
  | obj kvs =>
    rw [pomodorosOf] at h
    cases hl : lookupKey kvs "pomodoros" with
    | none => rw [hl] at h; simp at h
    | some v =>
      rw [hl] at h
      cases v with
      | arr ys => rw [_load_data, hl]
      | null => simp at h
      | bool b => simp at h
      | num q => simp at h
      | str s => simp at h
      | obj kvs2 => simp at h
  | null => simp [pomodorosOf] at h
  | bool b => simp [pomodorosOf] at h
  | num q => simp [pomodorosOf] at h
  | str s => simp [pomodorosOf] at h
  | arr ys => simp [pomodorosOf] at h

/-! ## Statistics over raw JSON records

`print_statistics` (lines 272-296) reads fields straight off the stored
dictionaries; a missing key is a Python `KeyError`, modelled as
`Except.error ()`. -/

/-- Python `p[k]` on a record: `KeyError` when the key is absent,
`TypeError` when `p` is not a mapping. -/
def getField (p : Json) (k : String) : Except Unit Json :=
  match p with
  | Json.obj kvs =>
    match lookupKey kvs k with
    | some v => Except.ok v
    | none => Except.error ()
  | _ => Except.error ()

/-- Python truthiness of a JSON value, as used by `if p['completed']`. -/
def truthy : Json → Bool
  | Json.null => false
  | Json.bool b => b
  | Json.num q => decide (q ≠ 0)
  | Json.str s => decide (s ≠ "")
  | Json.arr [] => false
  | Json.arr (_ :: _) => true
  | Json.obj [] => false
  | Json.obj (_ :: _) => true

/-- The comprehensions of lines 292-293:
`[p for p in pomodoros if p['completed']]` (with `want = true`) and
`[p for p in pomodoros if not p['completed']]` (with `want = false`);
evaluation is left to right and the first missing key raises. -/
def filterByCompleted (want : Bool) : List Json → Except Unit (List Json)
  | [] => Except.ok []
  | p :: rest =>
    match getField p "completed" with
    | Except.error e => Except.error e
    | Except.ok c =>
      match filterByCompleted want rest with
      | Except.error e => Except.error e
      | Except.ok tail => Except.ok (if truthy c = want then p :: tail else tail)

/-- The sums of lines 295-296: `sum(p[k] for p in pomodoros)`. A missing
key raises; a non-numeric value makes Python's sum raise a `TypeError`,
folded into the same error here. -/
def sumNumField (k : String) : List Json → Except Unit ℚ
  | [] => Except.ok 0
  | p :: rest =>
    match getField p k with
    | Except.error e => Except.error e
    | Except.ok (Json.num q) =>
      match sumNumField k rest with
      | Except.error e => Except.error e
      | Except.ok s => Except.ok (q + s)
    | Except.ok _ => Except.error ()

/-- Lines 272-296 of `print_statistics` with no date window: the empty-history
guard (line 274) followed by the completed/incomplete split and the two
totals. `ok none` is the early `"No Pomodoros recorded yet"` return; any
`KeyError` in the comprehensions propagates as `error`. -/
def print_statistics_totals (pomodoros : List Json) :
    Except Unit (Option (List Json × List Json × ℚ × ℚ)) :=
  if pomodoros.isEmpty then Except.ok none
  else
    match filterByCompleted true pomodoros with
    | Except.error e => Except.error e
    | Except.ok comp =>
      match filterByCompleted false pomodoros with
      | Except.error e => Except.error e
      | Except.ok incomp =>
        match sumNumField "work_sessions" pomodoros with
        | Except.error e => Except.error e
        | Except.ok tws =>
          match sumNumField "total_work_minutes" pomodoros with
          | Except.error e => Except.error e
          | Except.ok twm => Except.ok (some (comp, incomp, tws, twm))

theorem filterByCompleted_error (want : Bool) (p : Json) :
    ∀ rs : List Json, p ∈ rs → getField p "completed" = Except.error () →
    filterByCompleted want rs = Except.error () := by
  intro rs
  induction rs with
  | nil => intro h; simp at h
  | cons q rest ih =>
    intro hmem herr
    rcases List.mem_cons.mp hmem with hq | hq
    · subst hq
      rw [filterByCompleted, herr]
    · cases hg : getField q "completed" with
      | error e => rw [filterByCompleted, hg]
      | ok v => rw [filterByCompleted, hg, ih hq herr]

theorem sumNumField_error (k : String) (p : Json) :
    ∀ rs : List Json, p ∈ rs → getField p k = Except.error () →
    sumNumField k rs = Except.error () := by
  intro rs
  induction rs with
  | nil => intro h; simp at h
  | cons q rest ih =>
    intro hmem herr
    rcases List.mem_cons.mp hmem with hq | hq
    · subst hq
      rw [sumNumField, herr]
    · cases hg : getField q k with
      | error e => rw [sumNumField, hg]
      | ok v =>
        cases v with
        | num qq => rw [sumNumField, hg, ih hq herr]
        | null => rw [sumNumField, hg]
        | bool b => rw [sumNumField, hg]
        | str s => rw [sumNumField, hg]
        | arr xs => rw [sumNumField, hg]
        | obj kvs => rw [sumNumField, hg]

/-! ## Statistics over well-formed records

The average computation parses each record's `start_time` into a datetime
and keys on its calendar date; that part is modelled on records already
carrying structured timestamps (the shape `_save_*_pomodoro` writes). -/

structure Date where
  year : Nat
  month : Nat
  day : Nat
deriving DecidableEq

structure DateTime where
  date : Date
  hour : Nat
  minute : Nat
  second : Nat
deriving DecidableEq

/-- One stored cycle record with its fields decoded, as `print_statistics`
reads them. -/
structure StatRecord where
  start_time : DateTime
  end_time : DateTime
  completed : Bool
  work_sessions : Nat
  total_work_minutes : ℚ
deriving DecidableEq

/-- `PomodoroTimer._calculate_avg_per_day` (lines 330-345): sum of
`work_sessions` over the given records divided by the number of distinct
`start_time` calendar dates; `none` for an empty input (and for the
unreachable zero-days guard). -/
def _calculate_avg_per_day (pomodoros : List StatRecord) : Option ℚ :=
  if pomodoros = [] then none
  else
    let num_days := ((pomodoros.map (fun p => p.start_time.date)).dedup).length
    if num_days = 0 then none
    else some (((pomodoros.map (fun p => p.work_sessions)).sum : ℚ) / (num_days : ℚ))

/-- The completed-records subset of line 292. -/
def completedOf (pomodoros : List StatRecord) : List StatRecord :=
  pomodoros.filter (fun p => p.completed)

/-- The average actually reported by lines 310-315: computed only when there
are completed records, printed only when truthy — `if avg_sessions_per_day:`
suppresses both `None` and an average of `0.0`. -/
def reported_avg (pomodoros : List StatRecord) : Option ℚ :=
  if completedOf pomodoros = [] then none
  else
    match _calculate_avg_per_day (completedOf pomodoros) with
    | none => none
    | some q => if q = 0 then none else some q

/-! ## The cycle state machine

`run_pomodoro` (lines 168-235) sequences 4 work countdowns, the three
short-break prompts and breaks, the single completed-cycle save, and the
long-break prompt. The outside world — countdown outcomes, prompt input,
the wall clock — is an oracle the run consumes. -/

/-- `WORK_SESSIONS_PER_POMODORO` (line 29). -/
def WORK_SESSIONS_PER_POMODORO : Nat := 4

/-- The per-run durations of `PomodoroTimer.__init__` together with the
test-mode flag. Durations are in minutes, rational because test mode uses
`5 / 60` and `3 / 60`. -/
structure Config where
  testMode : Bool
  workDuration : ℚ
  shortBreakDuration : ℚ
  longBreakDuration : ℚ
deriving DecidableEq

/-- `PomodoroTimer.__init__` (lines 31-46): test mode overrides every
duration with its seconds-scale value, otherwise the class constants and
the configured long break are used. -/
def mkConfig (long_break_duration : ℚ) (test_mode : Bool) : Config :=
  if test_mode then
    { testMode := true, workDuration := 5 / 60, shortBreakDuration := 3 / 60,
      longBreakDuration := 5 / 60 }
  else
    { testMode := false, workDuration := 25, shortBreakDuration := 5,
      longBreakDuration := long_break_duration }

/-- One persisted cycle record, the dictionary built by
`_save_completed_pomodoro` / `_save_incomplete_pomodoro`. Timestamps are
abstract clock readings (the machine never inspects them). -/
structure Record where
  start_time : Nat
  end_time : Nat
  completed : Bool
  work_sessions : Nat
  total_work_minutes : ℚ
deriving DecidableEq

/-- Observable steps of one run, in order of occurrence. `persist r` is the
append-and-save a `_save_*_pomodoro` call performs. -/
inductive Event where
  | workDone (i : Nat)
  | workCancelled (i : Nat)
  | shortPromptShown (i : Nat)
  | shortBreakDone (i : Nat)
  | shortBreakCancelled (i : Nat)
  | breakSkipped (i : Nat)
  | persist (r : Record)
  | longPromptShown
  | longBreakRun (completedCountdown : Bool)
deriving DecidableEq

/-- The machine's view of the store: `self.data['pomodoros']`, the list last
written to disk (`none` before any write), and the event trace so far. -/
structure MachineState where
  pomodoros : List Record
  disk : Option (List Record)
  trace : List Event
deriving DecidableEq

/-- What `input()` at a prompt produces: a line (as its character
sequence), or `KeyboardInterrupt`. -/
inductive PromptAnswer where
  | response (s : List Char)
  | interrupt

/-- Python `str.strip()`: drop leading and trailing whitespace. -/
def pyStrip (s : List Char) : List Char :=
  (((s.dropWhile Char.isWhitespace).reverse).dropWhile Char.isWhitespace).reverse

/-- Python `str.lower()` on the characters the prompt deals in. -/
def pyLower (s : List Char) : List Char :=
  s.map Char.toLower

/-- The oracle for one run: whether each countdown reaches zero or is
interrupted (`countdown`'s `True` / `False`), the answer at each prompt,
and the `datetime.now()` reading a save would record as `end_time`. -/
structure Env where
  workResult : Nat → Bool
  shortAnswer : Nat → PromptAnswer
  shortBreakResult : Nat → Bool
  longAnswer : PromptAnswer
  longBreakResult : Bool
  endTime : Nat

/-- `response == 'y' or response == ''` applied to
`input().strip().lower()` (lines 197-198 and 222-223). -/
def isYesResponse (s : List Char) : Bool :=
  pyLower (pyStrip s) == ['y'] || pyLower (pyStrip s) == []

/-- Modelled from the spec: the spec's `DECIDE_SHORT_BREAK` rule speaks of
"empty/affirmative input" defaulting to yes; an affirmative reply, in the
plain sense of the words, is at least `y` or `yes` (up to case and
surrounding whitespace). Kept for comparison against `isYesResponse`. -/
def affirmativeInput (s : List Char) : Bool :=
  pyLower (pyStrip s) == ['y'] || pyLower (pyStrip s) == ['y', 'e', 's']

/-- The record written by `_save_completed_pomodoro` (lines 241-247). -/
def completedRecord (cfg : Config) (env : Env) (startT : Nat) : Record :=
  { start_time := startT, end_time := env.endTime, completed := true,
    work_sessions := WORK_SESSIONS_PER_POMODORO,
    total_work_minutes := cfg.workDuration * (WORK_SESSIONS_PER_POMODORO : ℚ) }

/-- The record written by `_save_incomplete_pomodoro` (lines 260-266). -/
def incompleteRecord (cfg : Config) (env : Env) (startT : Nat) (n : Nat) : Record :=
  { start_time := startT, end_time := env.endTime, completed := false,
    work_sessions := n,
    total_work_minutes := cfg.workDuration * (n : ℚ) }

/-- `_save_completed_pomodoro` (lines 237-251): a no-op in test mode,
otherwise append the completed record and rewrite the file. -/
def save_completed_pomodoro (cfg : Config) (env : Env) (startT : Nat)
    (st : MachineState) : MachineState :=
  if cfg.testMode then st
  else
    { pomodoros := st.pomodoros ++ [completedRecord cfg env startT],
      disk := some (st.pomodoros ++ [completedRecord cfg env startT]),
      trace := st.trace ++ [Event.persist (completedRecord cfg env startT)] }

/-- `_save_incomplete_pomodoro` (lines 253-270): a no-op in test mode and
when no session finished, otherwise append the incomplete record and
rewrite the file. -/
def save_incomplete_pomodoro (cfg : Config) (env : Env) (startT : Nat)
    (completed_sessions : Nat) (st : MachineState) : MachineState :=
  if cfg.testMode then st
  else if completed_sessions = 0 then st
  else
    { pomodoros := st.pomodoros ++ [incompleteRecord cfg env startT completed_sessions],
      disk := some (st.pomodoros ++ [incompleteRecord cfg env startT completed_sessions]),
      trace := st.trace ++ [Event.persist (incompleteRecord cfg env startT completed_sessions)] }

/-- The `for i in range(1, 5)` loop of `run_pomodoro` (lines 181-212).
`fuel` counts the iterations left (4 at entry), `completed` is
`completed_work_sessions`, so the session number is `i = completed + 1`.
Returns the state together with `True` when the loop ran to completion and
`False` when a cancellation returned out of `run_pomodoro`. -/
def workLoop (cfg : Config) (env : Env) (startT : Nat) :
    Nat → Nat → MachineState → MachineState × Bool
  | 0, _, st => (st, true)
  | fuel + 1, completed, st =>
    let i := completed + 1
    if env.workResult i then
      let st1 : MachineState := { st with trace := st.trace ++ [Event.workDone i] }
      if i < WORK_SESSIONS_PER_POMODORO then
        let st2 : MachineState := { st1 with trace := st1.trace ++ [Event.shortPromptShown i] }
        match env.shortAnswer i with
        | PromptAnswer.interrupt =>
          (save_incomplete_pomodoro cfg env startT (completed + 1) st2, false)
        | PromptAnswer.response s =>
          if isYesResponse s then
            if env.shortBreakResult i then
              workLoop cfg env startT fuel (completed + 1)
                { st2 with trace := st2.trace ++ [Event.shortBreakDone i] }
            else
              (save_incomplete_pomodoro cfg env startT (completed + 1)
                { st2 with trace := st2.trace ++ [Event.shortBreakCancelled i] }, false)
          else
            workLoop cfg env startT fuel (completed + 1)
              { st2 with trace := st2.trace ++ [Event.breakSkipped i] }
      else
        workLoop cfg env startT fuel (completed + 1) st1
    else
      (save_incomplete_pomodoro cfg env startT completed
        { st with trace := st.trace ++ [Event.workCancelled i] }, false)

/-- Lines 214-228 of `run_pomodoro`: the immediate completed-cycle save,
then the long-break prompt; a `KeyboardInterrupt` there just skips the
break, a yes runs the countdown whose outcome is discarded, anything else
skips. No further record is written on any path. -/
def afterWork (cfg : Config) (env : Env) (startT : Nat) (st : MachineState) : MachineState :=
  let st1 := save_completed_pomodoro cfg env startT st
  let st2 : MachineState := { st1 with trace := st1.trace ++ [Event.longPromptShown] }
  match env.longAnswer with
  | PromptAnswer.interrupt => st2
  | PromptAnswer.response s =>
    if isYesResponse s then
      { st2 with trace := st2.trace ++ [Event.longBreakRun env.longBreakResult] }
    else st2

/-- `PomodoroTimer.run_pomodoro` (lines 168-235). -/
def run_pomodoro (cfg : Config) (env : Env) (startT : Nat) (st0 : MachineState) : MachineState :=
  if (workLoop cfg env startT WORK_SESSIONS_PER_POMODORO 0 st0).2 then
    afterWork cfg env startT (workLoop cfg env startT WORK_SESSIONS_PER_POMODORO 0 st0).1
  else
    (workLoop cfg env startT WORK_SESSIONS_PER_POMODORO 0 st0).1

/-- Session `j` finishes and is followed neither by a prompt interrupt nor
by a cancelled short break: the loop goes on to session `j + 1`. -/
def stepOk (env : Env) (j : Nat) : Bool :=
  env.workResult j &&
    (match env.shortAnswer j with
     | PromptAnswer.interrupt => false
     | PromptAnswer.response s =>
       if isYesResponse s then env.shortBreakResult j else true)

/-- The run reaches the start of work session `i` (sessions `1` to `i - 1`
each finished and were followed through their breaks). -/
def reachesWork (env : Env) : Nat → Bool
  | 0 => false
  | 1 => true
  | j + 2 => reachesWork env (j + 1) && stepOk env (j + 1)

/-- All 4 work sessions finish. -/
def allWorkDone (env : Env) : Bool :=
  reachesWork env 4 && env.workResult 4

/-- A fresh store at the start of a run. -/
def stInit : MachineState := { pomodoros := [], disk := none, trace := [] }

/-- The configuration of a default run: `python3 pomodoro.py`. -/
def cfgStd : Config := mkConfig 20 false

/-- The configuration of a test-mode run: `python3 pomodoro.py --test`. -/
def cfgTest : Config := mkConfig 20 true

/-! ### State machine lemmas -/

/-- In test mode the loop never touches the store: every save helper
returns early. -/
theorem workLoop_testMode (cfg : Config) (env : Env) (startT : Nat)
    (hm : cfg.testMode = true) :
    ∀ fuel c st, ((workLoop cfg env startT fuel c st).1).pomodoros = st.pomodoros ∧
      ((workLoop cfg env startT fuel c st).1).disk = st.disk := by
  intro fuel
  induction fuel with
  | zero => intro c st; exact ⟨rfl, rfl⟩
  | succ f ih =>
    intro c st
    rw [workLoop]
    cases hw : env.workResult (c + 1) with
    | false => simp [save_incomplete_pomodoro, hm]
    | true =>
      by_cases hi : c + 1 < WORK_SESSIONS_PER_POMODORO
      · simp only [hi, if_true, if_pos hi]
        cases ha : env.shortAnswer (c + 1) with
        | interrupt => simp [save_incomplete_pomodoro, hm]
        | response s =>
          by_cases hy : isYesResponse s = true
          · cases hb : env.shortBreakResult (c + 1) with
            | true => simp [hy, hb, ih]
            | false => simp [hy, hb, save_incomplete_pomodoro, hm]
          · simp only [Bool.not_eq_true] at hy
            simp [hy, ih]
      · simp [hi, ih]

/-- `_save_incomplete_pomodoro` either returns early (test mode or zero
finished sessions) or appends exactly the incomplete record and rewrites
the file. -/
theorem save_incomplete_cases (cfg : Config) (env : Env) (startT n : Nat)
    (st : MachineState) :
    (save_incomplete_pomodoro cfg env startT n st = st ∧ (cfg.testMode = true ∨ n = 0)) ∨
    (cfg.testMode = false ∧ n ≠ 0 ∧ save_incomplete_pomodoro cfg env startT n st =
      { pomodoros := st.pomodoros ++ [incompleteRecord cfg env startT n],
        disk := some (st.pomodoros ++ [incompleteRecord cfg env startT n]),
        trace := st.trace ++ [Event.persist (incompleteRecord cfg env startT n)] }) := by
  unfold save_incomplete_pomodoro
  by_cases hm : cfg.testMode
  · exact Or.inl ⟨by simp [hm], Or.inl hm⟩
  · by_cases hn : n = 0
    · simp only [Bool.not_eq_true] at hm
      exact Or.inl ⟨by simp [hm, hn], Or.inr hn⟩
    · simp only [Bool.not_eq_true] at hm
      exact Or.inr ⟨hm, hn, by simp [hm, hn]⟩

/-- Frame lemma for the work loop: trace and record list only grow, the
disk is untouched or holds exactly the final record list, and every record
the loop appends is an incomplete record of between 1 and 4 sessions with
`total_work_minutes` = sessions x work duration. -/
theorem workLoop_frame (cfg : Config) (env : Env) (startT : Nat) :
    ∀ fuel c st, fuel + c = 4 →
    ∃ dt dp,
      ((workLoop cfg env startT fuel c st).1).trace = st.trace ++ dt ∧
      ((workLoop cfg env startT fuel c st).1).pomodoros = st.pomodoros ++ dp ∧
      (((workLoop cfg env startT fuel c st).1).disk = st.disk ∧ dp = [] ∨
        ((workLoop cfg env startT fuel c st).1).disk = some (st.pomodoros ++ dp)) ∧
      ∀ r ∈ dp, r.completed = false ∧ 1 ≤ r.work_sessions ∧ r.work_sessions ≤ 4 ∧
        r.total_work_minutes = cfg.workDuration * (r.work_sessions : ℚ) := by
  intro fuel
  induction fuel with
  | zero =>
    intro c st _
    exact ⟨[], [], by simp [workLoop], by simp [workLoop], Or.inl ⟨rfl, rfl⟩, by simp⟩
  | succ f ih =>
    intro c st hfc
    cases hw : env.workResult (c + 1) with
    | false =>
      have hstep : workLoop cfg env startT (f + 1) c st =
          (save_incomplete_pomodoro cfg env startT c
            { st with trace := st.trace ++ [Event.workCancelled (c + 1)] }, false) := by
        rw [workLoop]
        simp [hw]
      rcases save_incomplete_cases cfg env startT c
          { st with trace := st.trace ++ [Event.workCancelled (c + 1)] } with
        ⟨hsave, _⟩ | ⟨_, hn, hsave⟩
      · exact ⟨[Event.workCancelled (c + 1)], [], by rw [hstep, hsave],
          by rw [hstep, hsave]; simp, Or.inl ⟨by rw [hstep, hsave], rfl⟩, by simp⟩
      · refine ⟨[Event.workCancelled (c + 1),
          Event.persist (incompleteRecord cfg env startT c)],
          [incompleteRecord cfg env startT c], ?_, ?_, ?_, ?_⟩
        · rw [hstep, hsave]; simp
        · rw [hstep, hsave]
        · exact Or.inr (by rw [hstep, hsave])
        · intro r hr
          rw [List.mem_singleton] at hr
          subst hr
          refine ⟨rfl, ?_, ?_, rfl⟩ <;> simp only [incompleteRecord] <;> omega
    | true =>
      by_cases hi : c + 1 < WORK_SESSIONS_PER_POMODORO
      · cases ha : env.shortAnswer (c + 1) with
        | interrupt =>
          have hstep : workLoop cfg env startT (f + 1) c st =
              (save_incomplete_pomodoro cfg env startT (c + 1)
                { st with trace := st.trace ++
                    [Event.workDone (c + 1), Event.shortPromptShown (c + 1)] }, false) := by
            rw [workLoop]
            simp [hw, hi, ha]
          rcases save_incomplete_cases cfg env startT (c + 1)
              { st with trace := st.trace ++
                  [Event.workDone (c + 1), Event.shortPromptShown (c + 1)] } with
            ⟨hsave, _⟩ | ⟨_, _, hsave⟩
          · exact ⟨[Event.workDone (c + 1), Event.shortPromptShown (c + 1)], [],
              by rw [hstep, hsave], by rw [hstep, hsave]; simp,
              Or.inl ⟨by rw [hstep, hsave], rfl⟩, by simp⟩
          · refine ⟨[Event.workDone (c + 1), Event.shortPromptShown (c + 1),
              Event.persist (incompleteRecord cfg env startT (c + 1))],
              [incompleteRecord cfg env startT (c + 1)], ?_, ?_, ?_, ?_⟩
            · rw [hstep, hsave]; simp
            · rw [hstep, hsave]
            · exact Or.inr (by rw [hstep, hsave])
            · intro r hr
              rw [List.mem_singleton] at hr
              subst hr
              rw [WORK_SESSIONS_PER_POMODORO] at hi
              refine ⟨rfl, ?_, ?_, rfl⟩ <;> simp only [incompleteRecord] <;> omega
        | response s =>
          by_cases hy : isYesResponse s = true
          · cases hb : env.shortBreakResult (c + 1) with
            | true =>
              have hstep : workLoop cfg env startT (f + 1) c st =
                  workLoop cfg env startT f (c + 1)
                    { st with trace := st.trace ++
                        [Event.workDone (c + 1), Event.shortPromptShown (c + 1),
                         Event.shortBreakDone (c + 1)] } := by
                rw [workLoop]
                simp [hw, hi, ha, hy, hb]
              obtain ⟨dt, dp, h1, h2, h3, h4⟩ := ih (c + 1)
                { st with trace := st.trace ++
                    [Event.workDone (c + 1), Event.shortPromptShown (c + 1),
                     Event.shortBreakDone (c + 1)] } (by omega)
              refine ⟨[Event.workDone (c + 1), Event.shortPromptShown (c + 1),
                Event.shortBreakDone (c + 1)] ++ dt, dp, ?_, ?_, ?_, h4⟩
              · rw [hstep, h1]; simp
              · rw [hstep, h2]
              · rw [hstep]; exact h3
            | false =>
              have hstep : workLoop cfg env startT (f + 1) c st =
                  (save_incomplete_pomodoro cfg env startT (c + 1)
                    { st with trace := st.trace ++
                        [Event.workDone (c + 1), Event.shortPromptShown (c + 1),
                         Event.shortBreakCancelled (c + 1)] }, false) := by
                rw [workLoop]
                simp [hw, hi, ha, hy, hb]
              rcases save_incomplete_cases cfg env startT (c + 1)
                  { st with trace := st.trace ++
                      [Event.workDone (c + 1), Event.shortPromptShown (c + 1),
                       Event.shortBreakCancelled (c + 1)] } with
                ⟨hsave, _⟩ | ⟨_, _, hsave⟩
              · exact ⟨[Event.workDone (c + 1), Event.shortPromptShown (c + 1),
                  Event.shortBreakCancelled (c + 1)], [],
                  by rw [hstep, hsave], by rw [hstep, hsave]; simp,
                  Or.inl ⟨by rw [hstep, hsave], rfl⟩, by simp⟩
              · refine ⟨[Event.workDone (c + 1), Event.shortPromptShown (c + 1),
                  Event.shortBreakCancelled (c + 1),
                  Event.persist (incompleteRecord cfg env startT (c + 1))],
                  [incompleteRecord cfg env startT (c + 1)], ?_, ?_, ?_, ?_⟩
                · rw [hstep, hsave]; simp
                · rw [hstep, hsave]
                · exact Or.inr (by rw [hstep, hsave])
                · intro r hr
                  rw [List.mem_singleton] at hr
                  subst hr
                  rw [WORK_SESSIONS_PER_POMODORO] at hi
                  refine ⟨rfl, ?_, ?_, rfl⟩ <;> simp only [incompleteRecord] <;> omega
          · simp only [Bool.not_eq_true] at hy
            have hstep : workLoop cfg env startT (f + 1) c st =
                workLoop cfg env startT f (c + 1)
                  { st with trace := st.trace ++
                      [Event.workDone (c + 1), Event.shortPromptShown (c + 1),
                       Event.breakSkipped (c + 1)] } := by
              rw [workLoop]
              simp [hw, hi, ha, hy]
            obtain ⟨dt, dp, h1, h2, h3, h4⟩ := ih (c + 1)
              { st with trace := st.trace ++
                  [Event.workDone (c + 1), Event.shortPromptShown (c + 1),
                   Event.breakSkipped (c + 1)] } (by omega)
            refine ⟨[Event.workDone (c + 1), Event.shortPromptShown (c + 1),
              Event.breakSkipped (c + 1)] ++ dt, dp, ?_, ?_, ?_, h4⟩
            · rw [hstep, h1]; simp
            · rw [hstep, h2]
            · rw [hstep]; exact h3
      · have hstep : workLoop cfg env startT (f + 1) c st =
            workLoop cfg env startT f (c + 1)
              { st with trace := st.trace ++ [Event.workDone (c + 1)] } := by
          rw [workLoop]
          simp [hw, hi]
        obtain ⟨dt, dp, h1, h2, h3, h4⟩ := ih (c + 1)
          { st with trace := st.trace ++ [Event.workDone (c + 1)] } (by omega)
        refine ⟨[Event.workDone (c + 1)] ++ dt, dp, ?_, ?_, ?_, h4⟩
        · rw [hstep, h1]; simp
        · rw [hstep, h2]
        · rw [hstep]; exact h3

/-- Reaching work session `c + 1`: when the first `c` sessions each finish
and are followed through (`reachesWork`), the loop from the start equals
the loop started at session `c + 1`, with only non-persist events added to
the trace on the way. -/
theorem workLoop_reach (cfg : Config) (env : Env) (startT : Nat) :
    ∀ c, c ≤ 3 → reachesWork env (c + 1) = true →
    ∀ st : MachineState, ∃ t : List Event, (∀ r, Event.persist r ∉ t) ∧
      workLoop cfg env startT 4 0 st =
        workLoop cfg env startT (4 - c) c { st with trace := st.trace ++ t } := by
  intro c
  induction c with
  | zero =>
    intro _ _ st
    refine ⟨[], by simp, by simp⟩
  | succ c ih =>
    intro hc hr st
    have hc' : c ≤ 3 := by omega
    rw [reachesWork, Bool.and_eq_true] at hr
    obtain ⟨hr1, hstep⟩ := hr
    obtain ⟨t0, hnp0, heq0⟩ := ih hc' hr1 st
    rw [stepOk, Bool.and_eq_true] at hstep
    obtain ⟨hwork, hrest⟩ := hstep
    have h4 : 4 - c = (3 - c) + 1 := by omega
    have h4' : 4 - (c + 1) = 3 - c := by omega
    have hi : c + 1 < WORK_SESSIONS_PER_POMODORO := by
      rw [WORK_SESSIONS_PER_POMODORO]; omega
    cases ha : env.shortAnswer (c + 1) with
    | interrupt => rw [ha] at hrest; simp at hrest
    | response s =>
      rw [ha] at hrest
      by_cases hy : isYesResponse s = true
      · simp only [hy, if_true] at hrest
        refine ⟨t0 ++ [Event.workDone (c + 1), Event.shortPromptShown (c + 1),
          Event.shortBreakDone (c + 1)], ?_, ?_⟩
        · intro r
          simp only [List.mem_append, List.mem_cons, List.not_mem_nil]
          intro hmem
          rcases hmem with hmem | hmem
          · exact hnp0 r hmem
          · rcases hmem with h | h | h | h <;> simp_all
        · rw [heq0, h4, workLoop, h4']
          simp [hwork, hi, ha, hy, hrest]
      · simp only [Bool.not_eq_true] at hy
        refine ⟨t0 ++ [Event.workDone (c + 1), Event.shortPromptShown (c + 1),
          Event.breakSkipped (c + 1)], ?_, ?_⟩
        · intro r
          simp only [List.mem_append, List.mem_cons, List.not_mem_nil]
          intro hmem
          rcases hmem with hmem | hmem
          · exact hnp0 r hmem
          · rcases hmem with h | h | h | h <;> simp_all
        · rw [heq0, h4, workLoop, h4']
          simp [hwork, hi, ha, hy]

/-- After the fourth session the completed-cycle record (and nothing else)
is saved before the long-break prompt; the prompt and the long break
itself add no persist event whatever the answer and countdown outcome. -/
theorem afterWork_spec (cfg : Config) (env : Env) (startT : Nat) (st : MachineState)
    (hm : cfg.testMode = false) :
    ∃ t2 : List Event, (∀ r, Event.persist r ∉ t2) ∧
      afterWork cfg env startT st =
        { pomodoros := st.pomodoros ++ [completedRecord cfg env startT],
          disk := some (st.pomodoros ++ [completedRecord cfg env startT]),
          trace := st.trace ++ [Event.persist (completedRecord cfg env startT),
            Event.longPromptShown] ++ t2 } := by
  unfold afterWork save_completed_pomodoro
  rw [hm]
  cases env.longAnswer with
  | interrupt => exact ⟨[], by simp, by simp⟩
  | response s =>
    by_cases hy : isYesResponse s = true
    · exact ⟨[Event.longBreakRun env.longBreakResult], by simp, by simp [hy]⟩
    · simp only [Bool.not_eq_true] at hy
      exact ⟨[], by simp, by simp [hy]⟩

/-- In test mode `afterWork` touches only the trace. -/
theorem afterWork_testMode (cfg : Config) (env : Env) (startT : Nat) (st : MachineState)
    (hm : cfg.testMode = true) :
    (afterWork cfg env startT st).pomodoros = st.pomodoros ∧
    (afterWork cfg env startT st).disk = st.disk := by
  unfold afterWork save_completed_pomodoro
  rw [hm]
  cases env.longAnswer with
  | interrupt => exact ⟨rfl, rfl⟩
  | response s =>
    by_cases hy : isYesResponse s = true
    · simp [hy]
    · simp only [Bool.not_eq_true] at hy
      simp [hy]

/-- `afterWork` only appends to the trace. -/
theorem afterWork_trace_mono (cfg : Config) (env : Env) (startT : Nat) (st : MachineState) :
    ∃ d, (afterWork cfg env startT st).trace = st.trace ++ d := by
  unfold afterWork save_completed_pomodoro
  by_cases hm : cfg.testMode
  · rw [if_pos hm]
    cases env.longAnswer with
    | interrupt => exact ⟨[Event.longPromptShown], by simp⟩
    | response s =>
      by_cases hy : isYesResponse s = true
      · exact ⟨[Event.longPromptShown, Event.longBreakRun env.longBreakResult], by simp [hy]⟩
      · simp only [Bool.not_eq_true] at hy
        exact ⟨[Event.longPromptShown], by simp [hy]⟩
  · rw [if_neg hm]
    cases env.longAnswer with
    | interrupt =>
      exact ⟨[Event.persist (completedRecord cfg env startT), Event.longPromptShown], by simp⟩
    | response s =>
      by_cases hy : isYesResponse s = true
      · exact ⟨[Event.persist (completedRecord cfg env startT), Event.longPromptShown,
          Event.longBreakRun env.longBreakResult], by simp [hy]⟩
      · simp only [Bool.not_eq_true] at hy
        exact ⟨[Event.persist (completedRecord cfg env startT), Event.longPromptShown],
          by simp [hy]⟩

/-- The run's trace extends the work loop's trace. -/
theorem run_trace_ext (cfg : Config) (env : Env) (startT : Nat) (st0 : MachineState) :
    ∃ d, (run_pomodoro cfg env startT st0).trace =
      ((workLoop cfg env startT WORK_SESSIONS_PER_POMODORO 0 st0).1).trace ++ d := by
  unfold run_pomodoro
  by_cases hb : (workLoop cfg env startT WORK_SESSIONS_PER_POMODORO 0 st0).2
  · rw [if_pos hb]
    exact afterWork_trace_mono cfg env startT _
  · rw [if_neg hb]
    exact ⟨[], by simp⟩

theorem lookupKey_append_absent (kvs : List (String × Json)) (k : String) (v : Json)
    (h : lookupKey kvs k = none) : lookupKey (kvs ++ [(k, v)]) k = some v := by
  induction kvs with
  | nil => simp [lookupKey]
  | cons kv rest ih =>
    by_cases hk : kv.1 = k
    · rw [lookupKey, if_pos hk] at h
      exact absurd h (by simp)
    · rw [lookupKey, if_neg hk] at h
      rw [List.cons_append, lookupKey, if_neg hk]
      exact ih h

/-- C4 (counterexample): on a mapping that merely lacks the `'pomodoros'`
key — the concrete input `{}` — `_load_data` prints no warning, while the
claim says every missing-list-field input logs one. -/
theorem load_missing_field_no_warning_cex :
    ¬ ((_load_data (FileContent.parsed (Json.obj []))).2 = true) := by decide

/-- C4 (amended): `_load_data` never raises — for every file content it
returns a mapping whose `'pomodoros'` key holds a list; the warning is
printed exactly for unparsable content, non-mapping content, and a mapping
whose `'pomodoros'` value is present but not a list (NOT for a mapping
that merely lacks the key); and in every one of those cases, as well as
for a missing file and a mapping lacking the key, the returned history is
empty. -/
theorem load_data_never_raises_amended (fc : FileContent) :
    (∃ xs : List Json, pomodorosOf ((_load_data fc).1) = some xs) ∧
    ((_load_data fc).2 = loadWarns fc) ∧
    (loadYieldsEmpty fc = true → pomodorosOf ((_load_data fc).1) = some []) := by
  cases fc with
  | missing =>
    exact ⟨⟨[], by simp [_load_data, pomodorosOf, lookupKey]⟩, rfl,
      fun _ => by simp [_load_data, pomodorosOf, lookupKey]⟩
  | unparsable =>
    exact ⟨⟨[], by simp [_load_data, pomodorosOf, lookupKey]⟩, rfl,
      fun _ => by simp [_load_data, pomodorosOf, lookupKey]⟩
  | parsed j =>
    cases j with
    | obj kvs =>
      cases hl : lookupKey kvs "pomodoros" with
      | none =>
        refine ⟨⟨[], ?_⟩, ?_, fun _ => ?_⟩
        · simp only [_load_data, hl, pomodorosOf]
          rw [lookupKey_append_absent kvs "pomodoros" (Json.arr []) hl]
        · simp [_load_data, loadWarns, hl]
        · simp only [_load_data, hl, pomodorosOf]
          rw [lookupKey_append_absent kvs "pomodoros" (Json.arr []) hl]
      | some v =>
        cases v with
        | arr xs =>
          refine ⟨⟨xs, ?_⟩, ?_, fun hempty => ?_⟩
          · simp [_load_data, pomodorosOf, hl]
          · simp [_load_data, loadWarns, hl]
          · rw [loadYieldsEmpty, hl] at hempty
            simp at hempty
        | null =>
          exact ⟨⟨[], by simp [_load_data, pomodorosOf, lookupKey, hl]⟩,
            by simp [_load_data, loadWarns, hl],
            fun _ => by simp [_load_data, pomodorosOf, lookupKey, hl]⟩
        | bool b =>
          exact ⟨⟨[], by simp [_load_data, pomodorosOf, lookupKey, hl]⟩,
            by simp [_load_data, loadWarns, hl],
            fun _ => by simp [_load_data, pomodorosOf, lookupKey, hl]⟩
        | num q =>
          exact ⟨⟨[], by simp [_load_data, pomodorosOf, lookupKey, hl]⟩,
            by simp [_load_data, loadWarns, hl],
            fun _ => by simp [_load_data, pomodorosOf, lookupKey, hl]⟩
        | str s =>
          exact ⟨⟨[], by simp [_load_data, pomodorosOf, lookupKey, hl]⟩,
            by simp [_load_data, loadWarns, hl],
            fun _ => by simp [_load_data, pomodorosOf, lookupKey, hl]⟩
        | obj kvs2 =>
          exact ⟨⟨[], by simp [_load_data, pomodorosOf, lookupKey, hl]⟩,
            by simp [_load_data, loadWarns, hl],
            fun _ => by simp [_load_data, pomodorosOf, lookupKey, hl]⟩
    | null =>
      exact ⟨⟨[], by simp [_load_data, pomodorosOf, lookupKey]⟩, rfl,
        fun _ => by simp [_load_data, pomodorosOf, lookupKey]⟩
    | bool b =>
      exact ⟨⟨[], by simp [_load_data, pomodorosOf, lookupKey]⟩, rfl,
        fun _ => by simp [_load_data, pomodorosOf, lookupKey]⟩
    | num q =>
      exact ⟨⟨[], by simp [_load_data, pomodorosOf, lookupKey]⟩, rfl,
        fun _ => by simp [_load_data, pomodorosOf, lookupKey]⟩
    | str s =>
      exact ⟨⟨[], by simp [_load_data, pomodorosOf, lookupKey]⟩, rfl,
        fun _ => by simp [_load_data, pomodorosOf, lookupKey]⟩
    | arr xs =>
      exact ⟨⟨[], by simp [_load_data, pomodorosOf, lookupKey]⟩, rfl,
        fun _ => by simp [_load_data, pomodorosOf, lookupKey]⟩

/-- C4 (witness): the amended theorem at the missing-file input. -/
theorem load_data_never_raises_witness :
    (∃ xs : List Json, pomodorosOf ((_load_data FileContent.missing).1) = some xs) ∧
    ((_load_data FileContent.missing).2 = loadWarns FileContent.missing) ∧
    (loadYieldsEmpty FileContent.missing = true →
      pomodorosOf ((_load_data FileContent.missing).1) = some []) :=
  load_data_never_raises_amended FileContent.missing

/-- C5: starting from an empty store, appending `rs ++ [r]` succeeds, the
disk afterwards holds exactly the full serialised history, loading it back
gives that same data without warning, and its record list is exactly
`rs ++ [r]` in append order; moreover every single append on a well-formed
store rewrites the whole history to disk and extends the list by exactly
its record. -/
theorem append_cumulative_roundtrip (rs : List Json) (r : Json) :
    (∃ stf, appendAll emptyStore (rs ++ [r]) = some stf ∧
      stf.disk = some stf.data ∧
      _load_data (FileContent.parsed stf.data) = (stf.data, false) ∧
      pomodorosOf stf.data = some (rs ++ [r])) ∧
    (∀ (st : Store) (x : Json) (xs : List Json), pomodorosOf st.data = some xs →
      ∃ st2, appendAndSave st x = some st2 ∧ st2.disk = some st2.data ∧
        pomodorosOf st2.data = some (xs ++ [x])) := by
  constructor
  · have hempty : pomodorosOf emptyStore.data = some [] := by
      simp [emptyStore, _load_data, pomodorosOf, lookupKey]
    obtain ⟨stf, h1, h2, _, h4⟩ := appendAll_ok (rs ++ [r]) emptyStore [] hempty
    have hne : rs ++ [r] ≠ [] := by simp
    refine ⟨stf, h1, h4 hne, ?_, by simpa using h2⟩
    exact load_parsed_valid stf.data ([] ++ (rs ++ [r])) h2
  · intro st x xs h
    exact appendAndSave_ok st x xs h

/-- C5 (witness): two concrete appends from the empty store accumulate in
order. -/
theorem append_cumulative_roundtrip_witness :
    ∃ stf, appendAll emptyStore [Json.num 1, Json.num 2] = some stf ∧
      stf.disk = some stf.data ∧
      _load_data (FileContent.parsed stf.data) = (stf.data, false) ∧
      pomodorosOf stf.data = some [Json.num 1, Json.num 2] := by
  obtain ⟨h1, _⟩ := append_cumulative_roundtrip [Json.num 1] (Json.num 2)
  exact h1

/-- C1: in any non-test run in which all 4 work sessions finish, exactly
one record — completed, 4 sessions — is appended and written to disk; the
trace shows the persist happening immediately after the 4th work session
and before the long-break prompt, and no other persist occurs anywhere in
the run, for every long-break answer and countdown outcome. -/
theorem completed_cycle_persisted_once_before_long_break
    (cfg : Config) (env : Env) (startT : Nat) (st0 : MachineState)
    (hm : cfg.testMode = false) (hall : allWorkDone env = true) :
    (run_pomodoro cfg env startT st0).pomodoros
        = st0.pomodoros ++ [completedRecord cfg env startT] ∧
    (run_pomodoro cfg env startT st0).disk
        = some (st0.pomodoros ++ [completedRecord cfg env startT]) ∧
    ∃ t1 t2 : List Event, (∀ r, Event.persist r ∉ t1) ∧ (∀ r, Event.persist r ∉ t2) ∧
      (run_pomodoro cfg env startT st0).trace =
        st0.trace ++ t1 ++ [Event.workDone 4,
          Event.persist (completedRecord cfg env startT), Event.longPromptShown] ++ t2 := by
  rw [allWorkDone, Bool.and_eq_true] at hall
  obtain ⟨hr4, hw4⟩ := hall
  obtain ⟨t1, hnp1, heq⟩ := workLoop_reach cfg env startT 3 (by omega) hr4 st0
  have hloop : workLoop cfg env startT 4 0 st0 =
      ({ st0 with trace := st0.trace ++ (t1 ++ [Event.workDone 4]) }, true) := by
    rw [heq]
    show workLoop cfg env startT 1 3 _ = _
    rw [workLoop]
    simp [hw4, WORK_SESSIONS_PER_POMODORO, workLoop]
  obtain ⟨t2, hnp2, hAW⟩ := afterWork_spec cfg env startT
    { st0 with trace := st0.trace ++ (t1 ++ [Event.workDone 4]) } hm
  have hrun : run_pomodoro cfg env startT st0 =
      afterWork cfg env startT { st0 with trace := st0.trace ++ (t1 ++ [Event.workDone 4]) } := by
    rw [run_pomodoro, WORK_SESSIONS_PER_POMODORO, hloop]
    simp
  rw [hrun, hAW]
  refine ⟨rfl, rfl, t1, t2, hnp1, hnp2, ?_⟩
  simp

/-- C2: cancelling the countdown during work session `i` of a non-test run
ends the run; for `i = 1` nothing is persisted at all, otherwise exactly
one incomplete record with `i - 1` work sessions is appended and written. -/
theorem work_cancel_persists_prior_sessions
    (cfg : Config) (env : Env) (startT : Nat) (st0 : MachineState) (i : Nat)
    (hm : cfg.testMode = false) (hlo : 1 ≤ i) (hhi : i ≤ 4)
    (hreach : reachesWork env i = true) (hw : env.workResult i = false) :
    ((run_pomodoro cfg env startT st0).pomodoros,
     (run_pomodoro cfg env startT st0).disk) =
      if i = 1 then (st0.pomodoros, st0.disk)
      else (st0.pomodoros ++ [incompleteRecord cfg env startT (i - 1)],
            some (st0.pomodoros ++ [incompleteRecord cfg env startT (i - 1)])) := by
  obtain ⟨c, rfl⟩ : ∃ c, i = c + 1 := ⟨i - 1, by omega⟩
  have hc : c ≤ 3 := by omega
  obtain ⟨t1, hnp1, heq⟩ := workLoop_reach cfg env startT c hc hreach st0
  have h4c : 4 - c = (3 - c) + 1 := by omega
  have hloop : workLoop cfg env startT 4 0 st0 =
      (save_incomplete_pomodoro cfg env startT c
        { st0 with trace := st0.trace ++ (t1 ++ [Event.workCancelled (c + 1)]) }, false) := by
    rw [heq, h4c, workLoop]
    simp [hw]
  have hrun : run_pomodoro cfg env startT st0 =
      save_incomplete_pomodoro cfg env startT c
        { st0 with trace := st0.trace ++ (t1 ++ [Event.workCancelled (c + 1)]) } := by
    rw [run_pomodoro, WORK_SESSIONS_PER_POMODORO, hloop]
    simp
  rcases save_incomplete_cases cfg env startT c
      { st0 with trace := st0.trace ++ (t1 ++ [Event.workCancelled (c + 1)]) } with
    ⟨hsave, hor⟩ | ⟨_, hn, hsave⟩
  · rcases hor with hmT | hc0
    · rw [hm] at hmT
      exact absurd hmT (by simp)
    · subst hc0
      rw [hrun, hsave]
      simp
  · have hne1 : ¬ (c + 1 = 1) := by omega
    rw [hrun, hsave]
    simp [hne1]

/-- C3: in a non-test run that finished work session `i` (1 to 3), a
`KeyboardInterrupt` at the short-break prompt or a cancelled short break
ends the run with exactly one incomplete record counting `i` sessions. -/
theorem short_break_cancel_counts_finished_work
    (cfg : Config) (env : Env) (startT : Nat) (st0 : MachineState) (i : Nat)
    (hm : cfg.testMode = false) (hlo : 1 ≤ i) (hhi : i ≤ 3)
    (hreach : reachesWork env i = true) (hw : env.workResult i = true)
    (hcase : env.shortAnswer i = PromptAnswer.interrupt ∨
      ∃ s, env.shortAnswer i = PromptAnswer.response s ∧ isYesResponse s = true ∧
        env.shortBreakResult i = false) :
    (run_pomodoro cfg env startT st0).pomodoros
        = st0.pomodoros ++ [incompleteRecord cfg env startT i] ∧
    (run_pomodoro cfg env startT st0).disk
        = some (st0.pomodoros ++ [incompleteRecord cfg env startT i]) := by
  obtain ⟨c, rfl⟩ : ∃ c, i = c + 1 := ⟨i - 1, by omega⟩
  have hc : c ≤ 3 := by omega
  have hi : c + 1 < WORK_SESSIONS_PER_POMODORO := by
    rw [WORK_SESSIONS_PER_POMODORO]; omega
  obtain ⟨t1, hnp1, heq⟩ := workLoop_reach cfg env startT c hc hreach st0
  have h4c : 4 - c = (3 - c) + 1 := by omega
  rcases hcase with ha | ⟨s, ha, hy, hb⟩
  · have hloop : workLoop cfg env startT 4 0 st0 =
        (save_incomplete_pomodoro cfg env startT (c + 1)
          { st0 with trace := st0.trace ++ (t1 ++
              [Event.workDone (c + 1), Event.shortPromptShown (c + 1)]) }, false) := by
      rw [heq, h4c, workLoop]
      simp [hw, hi, ha]
    have hrun : run_pomodoro cfg env startT st0 =
        save_incomplete_pomodoro cfg env startT (c + 1)
          { st0 with trace := st0.trace ++ (t1 ++
              [Event.workDone (c + 1), Event.shortPromptShown (c + 1)]) } := by
      rw [run_pomodoro, WORK_SESSIONS_PER_POMODORO, hloop]
      simp
    rcases save_incomplete_cases cfg env startT (c + 1)
        { st0 with trace := st0.trace ++ (t1 ++
            [Event.workDone (c + 1), Event.shortPromptShown (c + 1)]) } with
      ⟨hsave, hor⟩ | ⟨_, hn, hsave⟩
    · rcases hor with hmT | hc0
      · rw [hm] at hmT
        exact absurd hmT (by simp)
      · exact absurd hc0 (by omega)
    · rw [hrun, hsave]
      exact ⟨rfl, rfl⟩
  · have hloop : workLoop cfg env startT 4 0 st0 =
        (save_incomplete_pomodoro cfg env startT (c + 1)
          { st0 with trace := st0.trace ++ (t1 ++
              [Event.workDone (c + 1), Event.shortPromptShown (c + 1),
               Event.shortBreakCancelled (c + 1)]) }, false) := by
      rw [heq, h4c, workLoop]
      simp [hw, hi, ha, hy, hb]
    have hrun : run_pomodoro cfg env startT st0 =
        save_incomplete_pomodoro cfg env startT (c + 1)
          { st0 with trace := st0.trace ++ (t1 ++
              [Event.workDone (c + 1), Event.shortPromptShown (c + 1),
               Event.shortBreakCancelled (c + 1)]) } := by
      rw [run_pomodoro, WORK_SESSIONS_PER_POMODORO, hloop]
      simp
    rcases save_incomplete_cases cfg env startT (c + 1)
        { st0 with trace := st0.trace ++ (t1 ++
            [Event.workDone (c + 1), Event.shortPromptShown (c + 1),
             Event.shortBreakCancelled (c + 1)]) } with
      ⟨hsave, hor⟩ | ⟨_, hn, hsave⟩
    · rcases hor with hmT | hc0
      · rw [hm] at hmT
        exact absurd hmT (by simp)
      · exact absurd hc0 (by omega)
    · rw [hrun, hsave]
      exact ⟨rfl, rfl⟩

/-- C6 (amended): at the short-break prompt after work session `i`, empty
input and input normalising (strip + lowercase) to the single letter `y`
run the short break — the event following the prompt is the break's
completion or cancellation; every other input, `yes` included, skips the
break, and the run proceeds directly to work session `i + 1`. -/
theorem short_break_prompt_decision_amended
    (cfg : Config) (env : Env) (startT : Nat) (st0 : MachineState) (i : Nat) (s : List Char)
    (hlo : 1 ≤ i) (hhi : i ≤ 3) (hreach : reachesWork env i = true)
    (hw : env.workResult i = true) (ha : env.shortAnswer i = PromptAnswer.response s) :
    ∃ t rest : List Event,
      (run_pomodoro cfg env startT st0).trace =
        st0.trace ++ t ++ [Event.workDone i, Event.shortPromptShown i] ++ rest ∧
      (isYesResponse s = true →
        rest.head? = some (if env.shortBreakResult i = true
          then Event.shortBreakDone i else Event.shortBreakCancelled i)) ∧
      (isYesResponse s = false →
        rest.head? = some (Event.breakSkipped i) ∧
        workLoop cfg env startT 4 0 st0 =
          workLoop cfg env startT (4 - i) i
            { st0 with trace := st0.trace ++ t ++
                [Event.workDone i, Event.shortPromptShown i, Event.breakSkipped i] }) := by
  obtain ⟨c, rfl⟩ : ∃ c, i = c + 1 := ⟨i - 1, by omega⟩
  have hc : c ≤ 3 := by omega
  have hi : c + 1 < WORK_SESSIONS_PER_POMODORO := by
    rw [WORK_SESSIONS_PER_POMODORO]; omega
  obtain ⟨t1, hnp1, heq⟩ := workLoop_reach cfg env startT c hc hreach st0
  have h4c : 4 - c = (3 - c) + 1 := by omega
  obtain ⟨d, hext⟩ := run_trace_ext cfg env startT st0
  rw [WORK_SESSIONS_PER_POMODORO] at hext
  by_cases hy : isYesResponse s = true
  · cases hb : env.shortBreakResult (c + 1) with
    | true =>
      have hloop : workLoop cfg env startT 4 0 st0 =
          workLoop cfg env startT (3 - c) (c + 1)
            { st0 with trace := st0.trace ++ (t1 ++
                [Event.workDone (c + 1), Event.shortPromptShown (c + 1),
                 Event.shortBreakDone (c + 1)]) } := by
        rw [heq, h4c, workLoop]
        simp [hw, hi, ha, hy, hb]
      obtain ⟨dt, dp, h1, _, _, _⟩ := workLoop_frame cfg env startT (3 - c) (c + 1)
        { st0 with trace := st0.trace ++ (t1 ++
            [Event.workDone (c + 1), Event.shortPromptShown (c + 1),
             Event.shortBreakDone (c + 1)]) } (by omega)
      refine ⟨t1, Event.shortBreakDone (c + 1) :: (dt ++ d), ?_, fun _ => by simp [hb], ?_⟩
      · rw [hext, hloop, h1]
        simp
      · intro hyn
        rw [hy] at hyn
        exact absurd hyn (by simp)
    | false =>
      have hloop : workLoop cfg env startT 4 0 st0 =
          (save_incomplete_pomodoro cfg env startT (c + 1)
            { st0 with trace := st0.trace ++ (t1 ++
                [Event.workDone (c + 1), Event.shortPromptShown (c + 1),
                 Event.shortBreakCancelled (c + 1)]) }, false) := by
        rw [heq, h4c, workLoop]
        simp [hw, hi, ha, hy, hb]
      rcases save_incomplete_cases cfg env startT (c + 1)
          { st0 with trace := st0.trace ++ (t1 ++
              [Event.workDone (c + 1), Event.shortPromptShown (c + 1),
               Event.shortBreakCancelled (c + 1)]) } with
        ⟨hsave, _⟩ | ⟨_, _, hsave⟩
      · refine ⟨t1, [Event.shortBreakCancelled (c + 1)] ++ d, ?_, fun _ => by simp [hb], ?_⟩
        · rw [hext, hloop, hsave]
          simp
        · intro hyn
          rw [hy] at hyn
          exact absurd hyn (by simp)
      · refine ⟨t1, [Event.shortBreakCancelled (c + 1),
          Event.persist (incompleteRecord cfg env startT (c + 1))] ++ d, ?_,
          fun _ => by simp [hb], ?_⟩
        · rw [hext, hloop, hsave]
          simp
        · intro hyn
          rw [hy] at hyn
          exact absurd hyn (by simp)
  · simp only [Bool.not_eq_true] at hy
    have hloop : workLoop cfg env startT 4 0 st0 =
        workLoop cfg env startT (3 - c) (c + 1)
          { st0 with trace := st0.trace ++ (t1 ++
              [Event.workDone (c + 1), Event.shortPromptShown (c + 1),
               Event.breakSkipped (c + 1)]) } := by
      rw [heq, h4c, workLoop]
      simp [hw, hi, ha, hy]
    obtain ⟨dt, dp, h1, _, _, _⟩ := workLoop_frame cfg env startT (3 - c) (c + 1)
      { st0 with trace := st0.trace ++ (t1 ++
          [Event.workDone (c + 1), Event.shortPromptShown (c + 1),
           Event.breakSkipped (c + 1)]) } (by omega)
    refine ⟨t1, Event.breakSkipped (c + 1) :: (dt ++ d), ?_, ?_, fun _ => ⟨rfl, ?_⟩⟩
    · rw [hext, hloop, h1]
      simp
    · intro hyn
      rw [hy] at hyn
      exact absurd hyn (by simp)
    · have h4c' : 4 - (c + 1) = 3 - c := by omega
      rw [hloop, h4c']
      congr 1
      simp

/-- C8: in test mode nothing is ever persisted: for every outcome of the
run the record list and the disk are left exactly as they were, and both
save helpers are no-ops on any state. -/
theorem test_mode_suppresses_persistence
    (cfg : Config) (env : Env) (startT : Nat) (st0 : MachineState)
    (hm : cfg.testMode = true) :
    (run_pomodoro cfg env startT st0).pomodoros = st0.pomodoros ∧
    (run_pomodoro cfg env startT st0).disk = st0.disk ∧
    save_completed_pomodoro cfg env startT st0 = st0 ∧
    ∀ n, save_incomplete_pomodoro cfg env startT n st0 = st0 := by
  have hloop := workLoop_testMode cfg env startT hm WORK_SESSIONS_PER_POMODORO 0 st0
  refine ⟨?_, ?_, by simp [save_completed_pomodoro, hm],
    fun n => by simp [save_incomplete_pomodoro, hm]⟩ <;>
  · rw [run_pomodoro]
    by_cases hb : (workLoop cfg env startT WORK_SESSIONS_PER_POMODORO 0 st0).2 = true
    · rw [if_pos hb]
      have hAW := afterWork_testMode cfg env startT
        (workLoop cfg env startT WORK_SESSIONS_PER_POMODORO 0 st0).1 hm
      simp only [hAW.1, hAW.2, hloop.1, hloop.2]
    · rw [if_neg hb]
      simp only [hloop.1, hloop.2]

/-- C9: every record any run ever appends to the store satisfies the data
invariant: between 1 and 4 work sessions (in particular a zero-session
record is never persisted), `completed` only with all 4 sessions, and
`total_work_minutes` equal to the session count times the per-session work
duration. -/
theorem persisted_record_invariant
    (cfg : Config) (env : Env) (startT : Nat) (st0 : MachineState) :
    ∃ newRecs : List Record,
      (run_pomodoro cfg env startT st0).pomodoros = st0.pomodoros ++ newRecs ∧
      ∀ r ∈ newRecs, 1 ≤ r.work_sessions ∧ r.work_sessions ≤ 4 ∧
        (r.completed = true → r.work_sessions = 4) ∧
        r.total_work_minutes = cfg.workDuration * (r.work_sessions : ℚ) := by
  obtain ⟨dt, dp, h1, h2, h3, h4⟩ := workLoop_frame cfg env startT 4 0 st0 rfl
  have hinv : ∀ r ∈ dp, 1 ≤ r.work_sessions ∧ r.work_sessions ≤ 4 ∧
      (r.completed = true → r.work_sessions = 4) ∧
      r.total_work_minutes = cfg.workDuration * (r.work_sessions : ℚ) := by
    intro r hr
    obtain ⟨hcomp, ha, hb, hc⟩ := h4 r hr
    refine ⟨ha, hb, fun hcc => ?_, hc⟩
    rw [hcomp] at hcc
    exact absurd hcc (by simp)
  rw [run_pomodoro, WORK_SESSIONS_PER_POMODORO]
  by_cases hb : (workLoop cfg env startT 4 0 st0).2 = true
  · rw [if_pos hb]
    by_cases hm : cfg.testMode = true
    · refine ⟨dp, ?_, hinv⟩
      rw [(afterWork_testMode cfg env startT _ hm).1]
      exact h2
    · simp only [Bool.not_eq_true] at hm
      obtain ⟨t2, _, hAW⟩ := afterWork_spec cfg env startT
        (workLoop cfg env startT 4 0 st0).1 hm
      refine ⟨dp ++ [completedRecord cfg env startT], ?_, ?_⟩
      · rw [hAW]
        show (workLoop cfg env startT 4 0 st0).1.pomodoros ++ [completedRecord cfg env startT]
          = st0.pomodoros ++ (dp ++ [completedRecord cfg env startT])
        rw [h2, List.append_assoc]
      · intro r hr
        rw [List.mem_append, List.mem_singleton] at hr
        rcases hr with hr | hr
        · exact hinv r hr
        · subst hr
          refine ⟨?_, ?_, fun _ => ?_, ?_⟩ <;>
            simp [completedRecord, WORK_SESSIONS_PER_POMODORO]
  · rw [if_neg hb]
    exact ⟨dp, h2, hinv⟩

/-- A concrete timestamp used in the statistics scenarios. -/
def dtMorning : DateTime :=
  { date := { year := 2024, month := 1, day := 15 }, hour := 9, minute := 0, second := 0 }

/-- The same calendar day as `dtMorning`, later in the day. -/
def dtEvening : DateTime :=
  { date := { year := 2024, month := 1, day := 15 }, hour := 20, minute := 30, second := 0 }

/-- A hand-crafted completed record with zero work sessions (never produced
by the state machine, but readable from a stored file). -/
def zeroSessionRecord : StatRecord :=
  { start_time := dtMorning, end_time := dtMorning, completed := true,
    work_sessions := 0, total_work_minutes := 0 }

/-- C7 (counterexample): on the non-empty completed set containing only the
zero-session record, the sum/distinct-days formula has the value 0, but
`if avg_sessions_per_day:` treats a 0.0 average as falsy, so no average is
reported at all — the reported value is not the formula's value. -/
theorem avg_zero_sessions_not_reported_cex :
    completedOf [zeroSessionRecord] ≠ [] ∧
    reported_avg [zeroSessionRecord] ≠
      some ((((completedOf [zeroSessionRecord]).map (fun p => p.work_sessions)).sum : ℚ) /
        (((completedOf [zeroSessionRecord]).map (fun p => p.start_time.date)).toFinset.card : ℚ)) := by
  have h1 : completedOf [zeroSessionRecord] = [zeroSessionRecord] := rfl
  have hnone : reported_avg [zeroSessionRecord] = none := by
    rw [reported_avg, h1]
    rw [if_neg (by simp)]
    have hc : _calculate_avg_per_day [zeroSessionRecord] = some 0 := by
      rw [_calculate_avg_per_day, if_neg (by simp)]
      simp [zeroSessionRecord]
    rw [hc]
    simp
  refine ⟨by simp [h1], ?_⟩
  rw [hnone]
  simp

/-- C7 (amended): for a non-empty completed subset, the reported average is
the sum of `work_sessions` over completed records divided by the number of
distinct `start_time` calendar dates among them — except that an average
of exactly 0 is suppressed (nothing is reported), because the printing
guard treats `0.0` as falsy. -/
theorem avg_per_day_distinct_dates_amended (rs : List StatRecord)
    (h : completedOf rs ≠ []) :
    reported_avg rs =
      if ((completedOf rs).map (fun p => p.work_sessions)).sum = 0 then none
      else some ((((completedOf rs).map (fun p => p.work_sessions)).sum : ℚ) /
        (((completedOf rs).map (fun p => p.start_time.date)).toFinset.card : ℚ)) := by
  have hmapne : (completedOf rs).map (fun p => p.start_time.date) ≠ [] := by
    simpa using h
  have hdedupne : ((completedOf rs).map (fun p => p.start_time.date)).dedup ≠ [] := by
    simpa [List.dedup_eq_nil] using hmapne
  have hnum : (((completedOf rs).map (fun p => p.start_time.date)).dedup).length ≠ 0 := by
    simpa [List.length_eq_zero] using hdedupne
  have hcalc : _calculate_avg_per_day (completedOf rs) =
      some ((((completedOf rs).map (fun p => p.work_sessions)).sum : ℚ) /
        ((((completedOf rs).map (fun p => p.start_time.date)).dedup).length : ℚ)) := by
    rw [_calculate_avg_per_day, if_neg h]
    simp only [if_neg hnum]
  have hD : ((((completedOf rs).map (fun p => p.start_time.date)).dedup).length : ℚ) ≠ 0 :=
    Nat.cast_ne_zero.mpr hnum
  rw [reported_avg, if_neg h, hcalc]
  have hcast : ((((completedOf rs).map (fun p => p.work_sessions)).sum : ℕ) : ℚ)
      = ((completedOf rs).map (fun p => (p.work_sessions : ℚ))).sum := by
    rw [Nat.cast_list_sum, List.map_map]
    rfl
  have hiff : ((((completedOf rs).map (fun p => p.work_sessions)).sum : ℚ) /
      ((((completedOf rs).map (fun p => p.start_time.date)).dedup).length : ℚ) = 0) ↔
      (((completedOf rs).map (fun p => p.work_sessions)).sum = 0) := by
    rw [div_eq_zero_iff, ← hcast, Nat.cast_eq_zero]
    exact or_iff_left hD
  by_cases hs : ((completedOf rs).map (fun p => p.work_sessions)).sum = 0
  · rw [if_pos hs]
    simp only [if_pos (hiff.mpr hs)]
  · rw [if_neg hs]
    simp only [if_neg (fun hq => hs (hiff.mp hq))]
    rw [List.card_toFinset]

/-- C10: computing statistics over a non-empty history containing a record
missing `'completed'`, `'work_sessions'` or `'total_work_minutes'` raises
(the `KeyError` propagates) instead of defaulting or skipping. -/
theorem stats_missing_field_raises (rs : List Json) (p : Json) (hp : p ∈ rs)
    (hmiss : getField p "completed" = Except.error () ∨
      getField p "work_sessions" = Except.error () ∨
      getField p "total_work_minutes" = Except.error ()) :
    print_statistics_totals rs = Except.error () := by
  have hne : rs.isEmpty = false := by
    cases rs
    · simp at hp
    · rfl
  rcases hmiss with h | h | h
  · have hf := filterByCompleted_error true p rs hp h
    simp [print_statistics_totals, hne, hf]
  · have hs := sumNumField_error "work_sessions" p rs hp h
    cases h1 : filterByCompleted true rs with
    | error e => simp [print_statistics_totals, hne, h1]
    | ok comp =>
      cases h2 : filterByCompleted false rs with
      | error e => simp [print_statistics_totals, hne, h1, h2]
      | ok incomp => simp [print_statistics_totals, hne, h1, h2, hs]
  · have hs := sumNumField_error "total_work_minutes" p rs hp h
    cases h1 : filterByCompleted true rs with
    | error e => simp [print_statistics_totals, hne, h1]
    | ok comp =>
      cases h2 : filterByCompleted false rs with
      | error e => simp [print_statistics_totals, hne, h1, h2]
      | ok incomp =>
        cases h3 : sumNumField "work_sessions" rs with
        | error e => simp [print_statistics_totals, hne, h1, h2, h3]
        | ok tws => simp [print_statistics_totals, hne, h1, h2, h3, hs]

/-! ## Concrete runs -/

/-- An oracle that finishes every countdown and answers every prompt with
an empty line (the default yes). -/
def envAllYes : Env :=
  { workResult := fun _ => true, shortAnswer := fun _ => PromptAnswer.response [],
    shortBreakResult := fun _ => true, longAnswer := PromptAnswer.response [],
    longBreakResult := true, endTime := 99 }

/-- Work session 1 finishes, the countdown of work session 2 is
interrupted. -/
def envCancelWork2 : Env :=
  { workResult := fun i => i == 1, shortAnswer := fun _ => PromptAnswer.response [],
    shortBreakResult := fun _ => true, longAnswer := PromptAnswer.interrupt,
    longBreakResult := true, endTime := 50 }

/-- Every work session finishes, `y` is typed at the first prompt and the
short break's countdown is interrupted. -/
def envCancelBreak1 : Env :=
  { workResult := fun _ => true, shortAnswer := fun _ => PromptAnswer.response ['y'],
    shortBreakResult := fun _ => false, longAnswer := PromptAnswer.interrupt,
    longBreakResult := true, endTime := 60 }

/-- Every prompt is answered with the word `yes`. -/
def envYesWord : Env :=
  { workResult := fun _ => true,
    shortAnswer := fun _ => PromptAnswer.response ['y', 'e', 's'],
    shortBreakResult := fun _ => true,
    longAnswer := PromptAnswer.response ['y', 'e', 's'],
    longBreakResult := true, endTime := 70 }

/-- C1 (witness): the default-config all-yes run from a fresh store. -/
theorem completed_cycle_persisted_once_witness :
    (run_pomodoro cfgStd envAllYes 0 stInit).pomodoros
        = stInit.pomodoros ++ [completedRecord cfgStd envAllYes 0] ∧
    (run_pomodoro cfgStd envAllYes 0 stInit).disk
        = some (stInit.pomodoros ++ [completedRecord cfgStd envAllYes 0]) ∧
    ∃ t1 t2 : List Event, (∀ r, Event.persist r ∉ t1) ∧ (∀ r, Event.persist r ∉ t2) ∧
      (run_pomodoro cfgStd envAllYes 0 stInit).trace =
        stInit.trace ++ t1 ++ [Event.workDone 4,
          Event.persist (completedRecord cfgStd envAllYes 0), Event.longPromptShown] ++ t2 :=
  completed_cycle_persisted_once_before_long_break cfgStd envAllYes 0 stInit rfl (by decide)

/-- C2 (witness): cancelling during work session 2 persists a one-session
incomplete record. -/
theorem work_cancel_persists_prior_sessions_witness :
    ((run_pomodoro cfgStd envCancelWork2 0 stInit).pomodoros,
     (run_pomodoro cfgStd envCancelWork2 0 stInit).disk) =
      if 2 = 1 then (stInit.pomodoros, stInit.disk)
      else (stInit.pomodoros ++ [incompleteRecord cfgStd envCancelWork2 0 (2 - 1)],
            some (stInit.pomodoros ++ [incompleteRecord cfgStd envCancelWork2 0 (2 - 1)])) :=
  work_cancel_persists_prior_sessions cfgStd envCancelWork2 0 stInit 2 rfl
    (by decide) (by decide) (by decide) (by decide)

/-- C3 (witness): cancelling the first short break persists a one-session
incomplete record. -/
theorem short_break_cancel_counts_finished_work_witness :
    (run_pomodoro cfgStd envCancelBreak1 0 stInit).pomodoros
        = stInit.pomodoros ++ [incompleteRecord cfgStd envCancelBreak1 0 1] ∧
    (run_pomodoro cfgStd envCancelBreak1 0 stInit).disk
        = some (stInit.pomodoros ++ [incompleteRecord cfgStd envCancelBreak1 0 1]) :=
  short_break_cancel_counts_finished_work cfgStd envCancelBreak1 0 stInit 1 rfl
    (by decide) (by decide) (by decide) (by decide)
    (Or.inr ⟨['y'], rfl, by decide, rfl⟩)

/-- C6 (counterexample): `yes` is an affirmative input, yet the run that
answers `yes` at the first prompt never runs the first short break — it is
skipped. -/
theorem affirmative_yes_skips_break_cex :
    affirmativeInput ['y', 'e', 's'] = true ∧
    (run_pomodoro cfgStd envYesWord 0 stInit).trace.contains (Event.shortBreakDone 1) = false ∧
    (run_pomodoro cfgStd envYesWord 0 stInit).trace.contains (Event.shortBreakCancelled 1) = false ∧
    (run_pomodoro cfgStd envYesWord 0 stInit).trace.contains (Event.breakSkipped 1) = true :=
  ⟨by decide, by decide, by decide, by decide⟩

/-- C6 (witness): the amended prompt rule at session 1 with input `yes`. -/
theorem short_break_prompt_decision_witness :
    ∃ t rest : List Event,
      (run_pomodoro cfgStd envYesWord 0 stInit).trace =
        stInit.trace ++ t ++ [Event.workDone 1, Event.shortPromptShown 1] ++ rest ∧
      (isYesResponse ['y', 'e', 's'] = true →
        rest.head? = some (if envYesWord.shortBreakResult 1 = true
          then Event.shortBreakDone 1 else Event.shortBreakCancelled 1)) ∧
      (isYesResponse ['y', 'e', 's'] = false →
        rest.head? = some (Event.breakSkipped 1) ∧
        workLoop cfgStd envYesWord 0 4 0 stInit =
          workLoop cfgStd envYesWord 0 (4 - 1) 1
            { stInit with trace := stInit.trace ++ t ++
                [Event.workDone 1, Event.shortPromptShown 1, Event.breakSkipped 1] }) :=
  short_break_prompt_decision_amended cfgStd envYesWord 0 stInit 1 ['y', 'e', 's']
    (by decide) (by decide) (by decide) (by decide) rfl

/-- C8 (witness): the test-mode all-yes run leaves the store untouched. -/
theorem test_mode_suppresses_persistence_witness :
    (run_pomodoro cfgTest envAllYes 0 stInit).pomodoros = stInit.pomodoros ∧
    (run_pomodoro cfgTest envAllYes 0 stInit).disk = stInit.disk ∧
    save_completed_pomodoro cfgTest envAllYes 0 stInit = stInit ∧
    ∀ n, save_incomplete_pomodoro cfgTest envAllYes 0 n stInit = stInit :=
  test_mode_suppresses_persistence cfgTest envAllYes 0 stInit rfl

/-- C9 (witness): the invariant at the default all-yes run. -/
theorem persisted_record_invariant_witness :
    ∃ newRecs : List Record,
      (run_pomodoro cfgStd envAllYes 0 stInit).pomodoros = stInit.pomodoros ++ newRecs ∧
      ∀ r ∈ newRecs, 1 ≤ r.work_sessions ∧ r.work_sessions ≤ 4 ∧
        (r.completed = true → r.work_sessions = 4) ∧
        r.total_work_minutes = cfgStd.workDuration * (r.work_sessions : ℚ) :=
  persisted_record_invariant cfgStd envAllYes 0 stInit

/-- Two completed records on the same calendar day, 3 and 4 sessions. -/
def statRecordA : StatRecord :=
  { start_time := dtMorning, end_time := dtMorning, completed := true,
    work_sessions := 3, total_work_minutes := 75 }

def statRecordB : StatRecord :=
  { start_time := dtEvening, end_time := dtEvening, completed := true,
    work_sessions := 4, total_work_minutes := 100 }

/-- C7 (witness): two completed records on the same day totalling 7
sessions report an average of 7, not 3.5. -/
theorem avg_per_day_same_day_seven_witness :
    reported_avg [statRecordA, statRecordB] = some 7 := by
  rw [avg_per_day_distinct_dates_amended [statRecordA, statRecordB] (by decide)]
  have hcard : (((completedOf [statRecordA, statRecordB]).map
      (fun p => p.start_time.date)).toFinset.card) = 1 := by decide
  rw [hcard]
  simp [completedOf, statRecordA, statRecordB]
  norm_num

/-- A stored record carrying only the `'completed'` field. -/
def recordMissingSessions : Json := Json.obj [("completed", Json.bool true)]

/-- C10 (witness): statistics over a history holding a record without
`'work_sessions'` raise. -/
theorem stats_missing_field_raises_witness :
    print_statistics_totals [recordMissingSessions] = Except.error () :=
  stats_missing_field_raises [recordMissingSessions] recordMissingSessions
    (List.mem_singleton.mpr rfl) (Or.inr (Or.inl rfl))
